import Mathlib

/-!
Shallow embedding of the dependency-expression engine of
`libraries/entropy/spm.py` (class `PortagePlugin`): the structural parser
`paren_reduce`, the normalizer `paren_normalize` (`_zap_parens`), the
conditional reducer `use_reduce`, the per-atom option annotator
`usedeps_reduce`, the satisfaction selectors `paren_choose` /
`dep_or_select` / `dep_and_select` / `paren_license_choose`, and the field
orchestrator `calculate_dependencies`.

The Python code manipulates heterogeneous nested lists whose elements are
either strings or further lists; `Dep` is that dynamic value.  Python
exceptions are modelled by `Except PyErr`: `InvalidDependString` and
`ValueError` keep their messages, while `crash` stands for the unchecked
runtime errors (IndexError, TypeError, AttributeError, StopIteration) a
code path can raise, and `fuel` is an artifact of the fuel-based encoding
of the two loops whose Python termination argument is not structural
(it never occurs for inputs whose evaluation terminates in Python, and no
theorem below identifies it with a Python behaviour).
-/

namespace Entropy

/-- A node of the dynamically-typed dependency structure: a Python string
or a Python list of such nodes. -/
inductive Dep where
  | s (x : String)
  | l (ds : List Dep)

/-- Boolean equality on `Dep` (the `deriving` handler does not support
this nested inductive, so it is written by hand, in a shape the
equation compiler accepts structurally — which keeps it evaluable by the
kernel, so `decide` works on `Dep` equalities). -/
def Dep.beq : Dep → Dep → Bool
  | .s a, .s b => a == b
  | .l as, .l bs => goList as bs
  | _, _ => false
where goList : List Dep → List Dep → Bool
  | [], [] => true
  | a :: as, b :: bs => Dep.beq a b && goList as bs
  | _, _ => false

theorem Dep.beq_iff (a : Dep) : ∀ b, (Dep.beq a b = true) ↔ a = b := by
  refine @Dep.rec (fun a => ∀ b, (Dep.beq a b = true) ↔ a = b)
    (fun as => ∀ bs, (Dep.beq.goList as bs = true) ↔ as = bs)
    ?_ ?_ ?_ ?_ a
  · intro x b
    cases b <;> simp [Dep.beq]
  · intro ds ih b
    cases b <;> simp [Dep.beq, ih]
  · intro bs
    cases bs <;> simp [Dep.beq.goList]
  · intro d ds ihd ihds bs
    cases bs <;> simp [Dep.beq.goList, ihd, ihds]

instance : DecidableEq Dep := fun a b =>
  decidable_of_iff (Dep.beq a b = true) (Dep.beq_iff a b)

/-- The error classes the Python code can raise. -/
inductive PyErr where
  /-- `InvalidDependString` with its message. -/
  | invalid (msg : String)
  /-- `ValueError` with its message. -/
  | valueError (msg : String)
  /-- any unchecked runtime error (IndexError, TypeError, AttributeError,
  StopIteration, unpack errors). -/
  | crash
  /-- out of fuel (encoding artifact, unreachable for terminating runs). -/
  | fuel
deriving DecidableEq, Repr

instance {ε α : Type} [DecidableEq ε] [DecidableEq α] : DecidableEq (Except ε α) :=
  fun a b =>
    match a, b with
    | .ok a, .ok b =>
      if h : a = b then .isTrue (by rw [h]) else .isFalse (by simp [h])
    | .error e, .error f =>
      if h : e = f then .isTrue (by rw [h]) else .isFalse (by simp [h])
    | .ok _, .error _ => .isFalse (by simp)
    | .error _, .ok _ => .isFalse (by simp)

/-- `strip_empty(myarr)`: removes the empty strings from a token list. -/
def strip_empty (l : List String) : List String := l.filter (fun x => x ≠ "")

/-- Python's `s.split(sep)` for a one-character separator: cut at every
occurrence, keeping empty pieces (so `"a  b".split(" ")` is
`['a', '', 'b']`).  Written over `List Char` so the kernel can evaluate
it. -/
def splitCharAux (sep : Char) (cur : List Char) : List Char → List String
  | [] => [String.mk cur.reverse]
  | c :: rest =>
    if c = sep then String.mk cur.reverse :: splitCharAux sep [] rest
    else splitCharAux sep (c :: cur) rest

/-- Python's `s.split(sep)` for a one-character separator `sep`. -/
def pySplitChar (sep : Char) (s : String) : List String :=
  splitCharAux sep [] s.toList

/-- `strip_empty(s.split(" "))`, the whitespace-splitting idiom used by
`paren_reduce`, as `Dep` atoms. -/
def tokensOf (cs : List Char) : List Dep :=
  (strip_empty (splitCharAux ' ' [] cs)).map Dep.s

/-- The last character of a Python string, `s[-1]`, when it exists. -/
def lastChar (s : String) : Option Char := s.toList.getLast?

/-- The first character of a Python string, `s[0]`, when it exists. -/
def firstChar (s : String) : Option Char := s.toList.head?

/-- Python `s[:-1]`. -/
def dropLastStr (s : String) : String := String.mk s.toList.dropLast

/-- Python `s[1:]`. -/
def dropFirstStr (s : String) : String := String.mk (s.toList.drop 1)

/-- Result of one recursive `paren_reduce` activation: `pair l tail` is the
2-element list `[mylist, tail]` returned by the explicit `return`
statements; `flat l` is the bare accumulator returned when the `while`
loop runs off the end of the string. -/
inductive PRRes where
  | pair (l : List Dep) (tail : List Char)
  | flat (l : List Dep)
deriving DecidableEq

/-- The body of `paren_reduce` (the `while mystr:` loop with accumulator
`mylist`).  `fuel` only bounds the number of loop iterations; every branch
mirrors one branch of the Python code, including the dynamically-typed
unpacking `subsec, tail = self.paren_reduce(subsec)` of a recursive result:
a `flat` result is a plain list, which Python unpacks successfully exactly
when it has two elements, after which the loop continues with `mystr`
bound to its second element (crashing on `mystr.find` unless that element
is a string or a falsy empty list). -/
def paren_reduce_go (fuel : Nat) (mylist : List Dep) (cs : List Char) :
    Except PyErr PRRes :=
  match fuel with
  | 0 => .error .fuel
  | fuel + 1 =>
    if cs.isEmpty then .ok (.flat mylist)
    else
      match cs.findIdx? (· = '('), cs.findIdx? (· = ')') with
      | none, none =>
        -- freesec = mystr, subsec = None, tail = "": next iteration exits
        .ok (.flat (mylist ++ tokensOf cs))
      | some _, none =>
        -- `mystr[0] == ")"` is impossible here (no ")" at all)
        .error (.invalid "missing right parenthesis")
      | lp, some j =>
        if cs.head? = some ')' then
          -- return [mylist, mystr[1:]]
          .ok (.pair mylist (cs.drop 1))
        else
          match lp with
          | some i =>
            if i < j then
              -- freesec, subsec = mystr.split("(", 1); recurse on subsec
              match paren_reduce_go fuel [] (cs.drop (i + 1)) with
              | .error e => .error e
              | .ok (.pair subsec tail) =>
                paren_reduce_go fuel
                  (mylist ++ tokensOf (cs.take i) ++ [Dep.l subsec]) tail
              | .ok (.flat res) =>
                -- `subsec, tail = <plain list>`: unpack a 2-element list
                match res with
                | [d0, Dep.s tailStr] =>
                  paren_reduce_go fuel
                    (mylist ++ tokensOf (cs.take i) ++ [d0]) tailStr.toList
                | [d0, Dep.l []] =>
                  -- tail is a falsy empty list: the loop exits
                  .ok (.flat (mylist ++ tokensOf (cs.take i) ++ [d0]))
                | _ => .error .crash
            else
              -- subsec, tail = mystr.split(")", 1); return
              .ok (.pair (mylist ++ tokensOf (cs.take j)) (cs.drop (j + 1)))
          | none =>
            .ok (.pair (mylist ++ tokensOf (cs.take j)) (cs.drop (j + 1)))

/-- `paren_reduce(mystr)`: the top-level call.  A `pair` result really is
the Python 2-element list `[mylist, tail]`, which the top-level caller
receives as-is. -/
def paren_reduce (s : String) : Except PyErr (List Dep) :=
  match paren_reduce_go (s.length + 1) [] s.toList with
  | .error e => .error e
  | .ok (.flat l) => .ok l
  | .ok (.pair l tail) => .ok [Dep.l l, Dep.s (String.mk tail)]

example : paren_reduce "foobar foo ( bar baz )" =
    .ok [Dep.s "foobar", Dep.s "foo", Dep.l [Dep.s "bar", Dep.s "baz"]] := by
  decide

example : paren_reduce "|| ( x y ) z" =
    .ok [Dep.s "||", Dep.l [Dep.s "x", Dep.s "y"], Dep.s "z"] := by decide

example : paren_reduce "a ( b" = .error (.invalid "missing right parenthesis") := by
  decide

example : paren_reduce "b? " = .ok [Dep.s "b?"] := by decide

example : paren_reduce "|| ( ( a b ) )" =
    .ok [Dep.s "||", Dep.l [Dep.l [Dep.s "a", Dep.s "b"]]] := by decide

/-- A single-quote character, written via its code point. -/
def sq : String := String.singleton (Char.ofNat 39)

mutual

/-- Python's `str()` on a `Dep` value: a string prints as itself, a list
prints as `[repr e1, repr e2, ...]`.  The element `repr` of a plain string
is modelled as wrapping in single quotes, which matches CPython for
strings that contain no quote, backslash or control character (the only
strings the theorems below apply it to). -/
def pyStr : Dep → String
  | .s x => x
  | .l ds => "[" ++ pyStrInner ds ++ "]"

/-- Comma-separated element reprs of a Python list. -/
def pyStrInner : List Dep → String
  | [] => ""
  | [d] => pyReprD d
  | d :: rest => pyReprD d ++ ", " ++ pyStrInner rest

/-- Python's `repr()` of a list element (see `pyStr`). -/
def pyReprD : Dep → String
  | .s x => sq ++ x ++ sq
  | .l ds => "[" ++ pyStrInner ds ++ "]"

end

/-- Python truthiness of a `Dep` value: empty strings and empty lists are
falsy. -/
def depFalsy : Dep → Bool
  | .s x => x = ""
  | .l ds => ds.isEmpty

mutual

/-- A structural size measure, used only to provision fuel. -/
def depWeight : Dep → Nat
  | .s _ => 1
  | .l ds => 1 + depListWeight ds

/-- Size of a list of nodes (see `depWeight`). -/
def depListWeight : List Dep → Nat
  | [] => 1
  | d :: rest => depWeight d + depListWeight rest

end

/-- `_zap_parens(src, dest)` when `src` is a Python *string*: iterating a
string yields its characters as 1-character strings.  No character equals
`"||"`; a `'?'` character takes the conditional branch, whose
`i.next()` consumes the following character `d` and recursively zaps the
1-character string `d` (yielding `[d]`, or raising `StopIteration` if `d`
is itself `'?'`).  A `'?'` with no following character raises
`StopIteration` (modelled as `none`). -/
def zapChars : List Char → Option (List Dep)
  | [] => some []
  | c :: rest =>
    if c = '?' then
      match rest with
      | [] => none
      | d :: rest2 =>
        if d = '?' then none
        else
          match zapChars rest2 with
          | some tail =>
            some (Dep.s (String.singleton c) :: Dep.l [Dep.s (String.singleton d)] :: tail)
          | none => none
    else
      match zapChars rest with
      | some tail => some (Dep.s (String.singleton c) :: tail)
      | none => none

mutual

/-- `paren_normalize._zap_parens(src, dest, disjunction)`, the recursive
worker of the normalizer, with the `dest` accumulator made explicit as the
returned list.  `none` models a `StopIteration` escape from `i.next()`.
Each branch mirrors one branch of the Python loop:
a `'||'` string zaps the next element with `disjunction=True` and appends
its single element if the result is a singleton, else `'||'` and the list;
a `'?'`-suffixed string appends itself and the zap of the next element;
any other string is appended as-is; a list element is re-zapped and, in a
disjunction, appended collapsed-if-singleton, otherwise flattened into the
current destination. -/
def zap (disj : Bool) : List Dep → Option (List Dep)
  | [] => some []
  | Dep.s x :: rest =>
    if x = "||" then
      match rest with
      | [] => none
      | nxt :: rest2 =>
        match zapNext true nxt, zap disj rest2 with
        | some z, some tail =>
          some (if z.length = 1 then z ++ tail else Dep.s "||" :: Dep.l z :: tail)
        | _, _ => none
    else if lastChar x = some '?' then
      match rest with
      | [] => none
      | nxt :: rest2 =>
        match zapNext false nxt, zap disj rest2 with
        | some z, some tail => some (Dep.s x :: Dep.l z :: tail)
        | _, _ => none
    else
      match zap disj rest with
      | some tail => some (Dep.s x :: tail)
      | none => none
  | Dep.l ds :: rest =>
    match zap false ds, zap disj rest with
    | some z, some tail =>
      some (if disj then (if z.length = 1 then z ++ tail else Dep.l z :: tail)
            else z ++ tail)
    | _, _ => none

/-- `_zap_parens(i.next(), [], ...)`: the argument taken from the iterator
is a dynamic value — a list is zapped as a list, a string is iterated
character by character. -/
def zapNext (disj : Bool) : Dep → Option (List Dep)
  | Dep.s str => zapChars str.toList
  | Dep.l ds => zap disj ds

end

/-- `paren_normalize(src)`: the class constructor runs
`_zap_parens(src, self)` with `disjunction=False`. -/
def paren_normalize (l : List Dep) : Option (List Dep) :=
  zap false l

example : paren_normalize [Dep.s "||", Dep.l [Dep.s "x", Dep.s "y"], Dep.s "z"] =
    some [Dep.s "||", Dep.l [Dep.s "x", Dep.s "y"], Dep.s "z"] := by decide

example : paren_normalize [Dep.s "||", Dep.l [Dep.l [Dep.s "a", Dep.s "b"]]] =
    some [Dep.l [Dep.s "a", Dep.s "b"]] := by decide

example : paren_normalize [Dep.l [Dep.s "a", Dep.s "b"]] =
    some [Dep.s "a", Dep.s "b"] := by decide

example : paren_normalize [Dep.s "a?", Dep.l [Dep.s "b"]] =
    some [Dep.s "a?", Dep.l [Dep.s "b"]] := by decide

example : pyStr (Dep.l [Dep.s "x", Dep.s "y"]) =
    "[" ++ sq ++ "x" ++ sq ++ ", " ++ sq ++ "y" ++ sq ++ "]" := by decide

/-- The guard-matching loop of `use_reduce` (`for head in newdeparray[:-1]`):
each guard token has its trailing `?` stripped; an empty flag (or empty
flag after `!`) raises `InvalidDependString` ("Conditional without flag");
a negated guard fails — breaking the loop — iff
`not matchall and head_key in uselist or head_key in excludeall`;
an unnegated guard not in `masklist` fails iff
`not matchall and head not in uselist`; an unnegated guard in `masklist`
sets `ismatch = False` *without* breaking, so later guards are still
scanned for the missing-flag error. -/
def evalGuards (us ms ex : List String) (ma : Bool) (ismatch : Bool) :
    List String → Except PyErr Bool
  | [] => .ok ismatch
  | g :: rest =>
    let head := dropLastStr g
    if head = "" then .error (.invalid "Conditional without flag")
    else if firstChar head = some '!' then
      let key := dropFirstStr head
      if key = "" then .error (.invalid "Conditional without flag")
      else if (!ma && us.contains key) || ex.contains key then .ok false
      else evalGuards us ms ex ma ismatch rest
    else if ms.contains head then evalGuards us ms ex ma false rest
    else if !ma && !(us.contains head) then .ok false
    else evalGuards us ms ex ma ismatch rest

/-- The guard-chain collection loop of `use_reduce`
(`while isinstance(newdeparray[-1], basestring) and newdeparray[-1][-1] == "?"`):
keeps popping elements while the last collected one is a `?`-suffixed
string; running out of elements raises `ValueError`
("Conditional with no target"); popping an empty string crashes on
`newdeparray[-1][-1]` (IndexError). Returns the guard tokens, the
target, and the unconsumed remainder. -/
def collectGuards (gs : List String) :
    List Dep → Except PyErr (List String × Dep × List Dep)
  | [] => .error (.valueError "Conditional with no target")
  | nxt :: rest =>
    match nxt with
    | Dep.l ds => .ok (gs.reverse, Dep.l ds, rest)
    | Dep.s str =>
      if str = "" then .error .crash
      else if lastChar str = some '?' then collectGuards (str :: gs) rest
      else .ok (gs.reverse, Dep.s str, rest)

/-- The first validity check of `use_reduce`: every `'||'` or `'&&'` token
must be followed by a list. -/
def urValid : List Dep → Option PyErr
  | [] => none
  | d :: rest =>
    if d = Dep.s "||" ∨ d = Dep.s "&&" then
      match rest with
      | Dep.l _ :: _ => urValid rest
      | _ => some (.invalid "missing atom list in")
    else urValid rest

/-- The second validity check of `use_reduce`:
`deparray and deparray[-1] and deparray[-1][-1] == "?"` — a truthy final
element whose own final element is `"?"` (the final character for a
string, the final list element compared against the string `"?"` for a
list). -/
def lastDangling : List Dep → Bool := fun l =>
  match l.getLast? with
  | none => false
  | some (Dep.s str) => !(str = "") && (lastChar str == some '?')
  | some (Dep.l ds) => !(ds = []) && (ds.getLast? == some (Dep.s "?"))

/-- The body of `use_reduce`: mode `true` runs the two validity checks and
then enters the `while mydeparray:` loop (mode `false`) with an empty
result accumulator `rlist`.  `fuel` only bounds the number of steps.
The loop: a list head is recursively `use_reduce`d, appended if non-empty,
and replaced by an explicit empty list only if it directly follows a
`'||'` marker already in `rlist`; a `?`-suffixed string head collects its
guard chain (`collectGuards`), evaluates it (`evalGuards`), and on match
splices in the recursively reduced list target when non-empty (or the raw
string target, the deprecated non-parenthesized form); otherwise the head
is appended as a plain token. -/
def use_reduce_go (us ms : List String) (ma : Bool) (ex : List String) :
    Nat → Bool → List Dep → List Dep → Except PyErr (List Dep)
  | 0, _, _, _ => .error .fuel
  | fuel + 1, true, deparray, _ =>
    match urValid deparray with
    | some e => .error e
    | none =>
      if lastDangling deparray then .error (.invalid "Conditional without target in")
      else use_reduce_go us ms ma ex fuel false deparray []
  | _ + 1, false, [], rlist => .ok rlist
  | fuel + 1, false, head :: rest, rlist =>
    match head with
    | Dep.l ds =>
      match use_reduce_go us ms ma ex fuel true ds [] with
      | .error e => .error e
      | .ok additions =>
        if additions ≠ [] then
          use_reduce_go us ms ma ex fuel false rest (rlist ++ [Dep.l additions])
        else if rlist.getLast? = some (Dep.s "||") then
          use_reduce_go us ms ma ex fuel false rest (rlist ++ [Dep.l []])
        else use_reduce_go us ms ma ex fuel false rest rlist
    | Dep.s str =>
      if str = "" then .error .crash
      else if lastChar str = some '?' then
        match collectGuards [str] rest with
        | .error e => .error e
        | .ok (guards, target, remaining) =>
          match evalGuards us ms ex ma true guards with
          | .error e => .error e
          | .ok true =>
            match target with
            | Dep.l tds =>
              match use_reduce_go us ms ma ex fuel true tds [] with
              | .error e => .error e
              | .ok adds =>
                if adds ≠ [] then
                  use_reduce_go us ms ma ex fuel false remaining (rlist ++ [Dep.l adds])
                else use_reduce_go us ms ma ex fuel false remaining rlist
            | Dep.s tstr =>
              use_reduce_go us ms ma ex fuel false remaining (rlist ++ [Dep.s tstr])
          | .ok false => use_reduce_go us ms ma ex fuel false remaining rlist
      else use_reduce_go us ms ma ex fuel false rest (rlist ++ [Dep.s str])

/-- `use_reduce(deparray, uselist, masklist, matchall, excludeall)`. -/
def use_reduce (us ms : List String) (ma : Bool) (ex : List String)
    (deparray : List Dep) : Except PyErr (List Dep) :=
  use_reduce_go us ms ma ex (2 * depListWeight deparray + 2) true deparray []

example : use_reduce [] [] false [] [Dep.s "b?"] =
    .error (.invalid "Conditional without target in") := by decide

example : use_reduce [] [] false []
    [Dep.s "a", Dep.s "b?", Dep.l [Dep.s "c", Dep.s "d"]] =
    .ok [Dep.s "a"] := by decide

example : use_reduce ["b"] [] false []
    [Dep.s "a", Dep.s "b?", Dep.l [Dep.s "c", Dep.s "d"]] =
    .ok [Dep.s "a", Dep.l [Dep.s "c", Dep.s "d"]] := by decide

example : use_reduce [] [] true [] [Dep.s "!a?", Dep.l [Dep.s "x"]] =
    .ok [Dep.l [Dep.s "x"]] := by decide

example : use_reduce ["a"] [] false ["a"] [Dep.s "a?", Dep.l [Dep.s "x"]] =
    .ok [Dep.l [Dep.s "x"]] := by decide

example : use_reduce ["a"] [] false [] [Dep.s "!a?", Dep.l [Dep.s "x"]] =
    .ok [] := by decide

/-- The satisfaction oracle: `get_installed_atom(atom)` calls
`dep_match(str(atom))` on the installed-package tree and returns the last
match, or `None`.  It is an external collaborator, so it is a parameter
`inst` here; note the `str(...)`: a non-string argument is stringified,
never a type error. -/
def instDep (inst : String → Option String) (d : Dep) : Option String :=
  inst (pyStr d)

/-- The final `for y in x: ... return [y]` loop of `dep_or_select`: the
first element the oracle matches. -/
def findInstalled (inst : String → Option String) : List Dep → Option Dep
  | [] => none
  | y :: rest =>
    if (instDep inst y).isSome then some y else findInstalled inst rest

/-- The final verification loop of `dep_and_select`
(`for x in newlist: match = self.get_installed_atom(x); if match == None:
return []`): true iff every element matches. -/
def allInstalled (inst : String → Option String) : List Dep → Bool
  | [] => true
  | y :: rest => (instDep inst y).isSome && allInstalled inst rest

/-- `dep_or_select(or_list)` when `or_list` is a Python *string*: the loop
iterates its characters; no character equals `"||"` or is a list, so each
becomes a singleton `[c]` checked against the oracle — the first installed
character is returned. -/
def dep_or_select_chars (inst : String → Option String) (str : String) : List Dep :=
  match str.toList.find? (fun c => (inst (String.singleton c)).isSome) with
  | some c => [Dep.s (String.singleton c)]
  | none => []

mutual

/-- `dep_or_select(or_list)`: scans the alternatives with a skip-next
cursor.  A `'||'` marker recursively or-selects the *next* element (an
IndexError — `crash` — if there is none) and then runs the installed-check
loop over that result; a list alternative is and-selected
(`dep_and_select` is inlined here as `dep_and_go` plus the `allInstalled`
verification, which is exactly its body) and returned if non-empty; a
string alternative is returned as `[x]` if installed.  Otherwise the scan
continues; an exhausted scan returns `[]`. -/
def dep_or_select (inst : String → Option String) : List Dep → Except PyErr (List Dep)
  | [] => .ok []
  | Dep.s x :: rest =>
    if x = "||" then
      match rest with
      | [] => .error .crash
      | nxt :: rest2 =>
        match orNext inst nxt with
        | .error e => .error e
        | .ok sel =>
          match findInstalled inst sel with
          | some y => .ok [y]
          | none => dep_or_select inst rest2
    else
      if (inst x).isSome then .ok [Dep.s x] else dep_or_select inst rest
  | Dep.l ds :: rest =>
    match dep_and_go inst ds with
    | .error e => .error e
    | .ok nl =>
      if allInstalled inst nl then
        match nl with
        | [] => dep_or_select inst rest
        | _ => .ok nl
      else dep_or_select inst rest

/-- The accumulation loop of `dep_and_select(and_list)` (everything before
its final verification loop): `'||'` or-selects the next element and
extends the result with the selection — when the selection is empty the
stringified fallback is bound to the loop variable but *not* appended;
a list element is and-selected (inlined, as above) and its result
appended; a string element is appended as-is. -/
def dep_and_go (inst : String → Option String) : List Dep → Except PyErr (List Dep)
  | [] => .ok []
  | Dep.s x :: rest =>
    if x = "||" then
      match rest with
      | [] => .error .crash
      | nxt :: rest2 =>
        match orNext inst nxt with
        | .error e => .error e
        | .ok sel =>
          match dep_and_go inst rest2 with
          | .error e => .error e
          | .ok tail => .ok (sel ++ tail)
    else
      match dep_and_go inst rest with
      | .error e => .error e
      | .ok tail => .ok (Dep.s x :: tail)
  | Dep.l ds :: rest =>
    match dep_and_go inst ds with
    | .error e => .error e
    | .ok nl =>
      match dep_and_go inst rest with
      | .error e => .error e
      | .ok tail => .ok ((if allInstalled inst nl then nl else []) ++ tail)

/-- `self.dep_or_select(<next element>)`: the argument is a dynamic value —
a list is or-selected as a list, a string is scanned character by
character. -/
def orNext (inst : String → Option String) : Dep → Except PyErr (List Dep)
  | Dep.l ds => dep_or_select inst ds
  | Dep.s str => .ok (dep_or_select_chars inst str)

end

/-- `dep_and_select(and_list)`: accumulate (`dep_and_go`), then verify that
every element of the result is installed, else return `[]`. -/
def dep_and_select (inst : String → Option String) (l : List Dep) :
    Except PyErr (List Dep) :=
  match dep_and_go inst l with
  | .error e => .error e
  | .ok nl => .ok (if allInstalled inst nl then nl else [])

/-- `paren_choose(dep_list)`: the top-level selection walk.  A `'||'`
marker looks at the next element (IndexError if absent): a falsy one is
skipped entirely; otherwise it is or-selected, and when the selection is
empty the Python `str()` of the *whole* next element is appended (so a
failed disjunction fails loudly downstream), else the selection is
spliced in.  A list element is and-selected and spliced; a plain token is
appended. -/
def paren_choose (inst : String → Option String) : List Dep → Except PyErr (List Dep)
  | [] => .ok []
  | Dep.s x :: rest =>
    if x = "||" then
      match rest with
      | [] => .error .crash
      | nxt :: rest2 =>
        if depFalsy nxt then paren_choose inst rest2
        else
          match orNext inst nxt with
          | .error e => .error e
          | .ok sel =>
            match paren_choose inst rest2 with
            | .error e => .error e
            | .ok tail =>
              if sel.isEmpty then .ok (Dep.s (pyStr nxt) :: tail)
              else .ok (sel ++ tail)
    else
      match paren_choose inst rest with
      | .error e => .error e
      | .ok tail => .ok (Dep.s x :: tail)
  | Dep.l ds :: rest =>
    match dep_and_select inst ds with
    | .error e => .error e
    | .ok s =>
      match paren_choose inst rest with
      | .error e => .error e
      | .ok tail => .ok (s ++ tail)

/-- An oracle for tests: exactly the atoms in the list are installed. -/
def instOf (atoms : List String) : String → Option String := fun a =>
  if atoms.contains a then some a else none

example : paren_choose (instOf ["y"])
    [Dep.s "||", Dep.l [Dep.s "x", Dep.s "y"], Dep.s "z"] =
    .ok [Dep.s "y", Dep.s "z"] := by decide

example : paren_choose (instOf [])
    [Dep.s "||", Dep.l [Dep.s "x", Dep.s "y"], Dep.s "z"] =
    .ok [Dep.s ("[" ++ sq ++ "x" ++ sq ++ ", " ++ sq ++ "y" ++ sq ++ "]"), Dep.s "z"] := by
  decide

/-- Accumulator-style removal of duplicates, keeping first occurrences
(models Python `set` membership). -/
def dedupAux (seen : List String) : List String → List String
  | [] => []
  | x :: rest =>
    if seen.contains x then dedupAux seen rest
    else x :: dedupAux (x :: seen) rest

/-- Ordered insertion, for `sortStr`. -/
def insertStr (x : String) : List String → List String
  | [] => [x]
  | y :: rest => if x ≤ y then x :: y :: rest else y :: insertStr x rest

/-- Insertion sort on strings.  Python's `set` iterates in an unspecified
order; wherever the code materializes a set into a list, this model pins
that order to sorted (no theorem below depends on the choice). -/
def sortStr : List String → List String
  | [] => []
  | x :: rest => insertStr x (sortStr rest)

mutual

/-- The recursive collection of `paren_license_choose`: every string that
is not a `'||'` marker, from every nesting level, in document order. -/
def plcCollect : List Dep → List String
  | [] => []
  | d :: rest => plcItem d ++ plcCollect rest

/-- One item of the `paren_license_choose` loop: a nested list is
collected recursively, a `'||'` marker is dropped, any other string is
kept. -/
def plcItem : Dep → List String
  | Dep.s x => if x = "||" then [] else [x]
  | Dep.l ds => plcCollect ds

end

/-- `paren_license_choose(dep_list)`: a `set` of all license tokens
(see `sortStr` for the order pin). -/
def paren_license_choose (l : List Dep) : List String :=
  sortStr (dedupAux [] (plcCollect l))

/-- `' '.join(...)` and `','.join(...)`. -/
def joinSep (sep : String) : List String → String
  | [] => ""
  | [x] => x
  | x :: rest => x ++ sep ++ joinSep sep rest

/-- The elements of a dependency list as strings; a list element makes
`' '.join` raise `TypeError` (`crash`). -/
def depStringsE : List Dep → Except PyErr (List String)
  | [] => .ok []
  | Dep.s x :: rest =>
    match depStringsE rest with
    | .error e => .error e
    | .ok tail => .ok (x :: tail)
  | Dep.l _ :: _ => .error .crash

/-- `' '.join(deps)`. -/
def joinSpaceE (l : List Dep) : Except PyErr String :=
  match depStringsE l with
  | .error e => .error e
  | .ok ss => .ok (joinSep " " ss)

/-- Modelled from the spec: `entropy.tools.dep_getusedeps` is imported
from `entropy.tools`, which is not among the sources; per §3 the
option-constraint clauses are "parsed from an atom's trailing `[...]`
suffix; a comma-separated list of clauses". -/
def dep_getusedeps (dep : String) : List String :=
  if lastChar dep = some ']' then
    let parts := pySplitChar '[' (dropLastStr dep)
    if 2 ≤ parts.length then pySplitChar ',' (parts.getLastD "") else []
  else []

/-- Modelled from the spec: `entropy.tools.remove_usedeps` (same missing
module); §4.4: "strip the bracket suffix from the atom text". -/
def remove_usedeps (dep : String) : String :=
  (pySplitChar '[' dep).headD dep

/-- `usedeps_reduce.strip_use(xuse)`: drop a leading `!` and a trailing
`=` or `?`. -/
def strip_use (x : String) : String :=
  let m := if firstChar x = some '!' then dropFirstStr x else x
  if lastChar m = some '=' ∨ lastChar m = some '?' then dropLastStr m else m

/-- One iteration of the `for use in use_deps:` loop of `usedeps_reduce`,
as the list of markers it appends (assuming `use` non-empty):
a bare `!flag` (no `=`/`?` suffix) is skipped ("this does not exist atm");
`flag=` mirrors the current state (`flag` if enabled else `-flag`), and
`!flag=` the inverse; `!flag?` yields `-flag` only when the flag is
disabled; `flag?` yields `flag` only when enabled; anything else — in
particular a bare `flag` — is appended unchanged. -/
def processUseClause (enabled : List String) (use : String) : List String :=
  if firstChar use = some '!' ∧ ¬(lastChar use = some '=') ∧ ¬(lastChar use = some '?') then
    []
  else if lastChar use = some '=' then
    if firstChar use = some '!' then
      if enabled.contains (strip_use use) then ["-" ++ strip_use use]
      else [strip_use use]
    else
      if enabled.contains (strip_use use) then [strip_use use]
      else ["-" ++ strip_use use]
  else if lastChar use = some '?' then
    if firstChar use = some '!' then
      if enabled.contains (strip_use use) then [] else ["-" ++ strip_use use]
    else
      if enabled.contains (strip_use use) then [strip_use use] else []
  else [use]

/-- The whole clause loop: an empty clause crashes on `use[0]`
(IndexError). -/
def processClauses (enabled : List String) : List String → Except PyErr (List String)
  | [] => .ok []
  | u :: rest =>
    if u = "" then .error .crash
    else
      match processClauses enabled rest with
      | .error e => .error e
      | .ok r => .ok (processUseClause enabled u ++ r)

/-- `usedeps_reduce(dependencies, enabled_useflags)`: each dependency
carrying clauses has them rewritten (`processClauses`) and re-bracketed
when any marker survives, else the bracket suffix is removed; a
dependency without clauses passes through. -/
def usedeps_reduce (enabled : List String) : List Dep → Except PyErr (List Dep)
  | [] => .ok []
  | Dep.l _ :: _ => .error .crash
  | Dep.s dep :: rest =>
    let uses := dep_getusedeps dep
    if uses.isEmpty then
      match usedeps_reduce enabled rest with
      | .error e => .error e
      | .ok tail => .ok (Dep.s dep :: tail)
    else
      match processClauses enabled uses with
      | .error e => .error e
      | .ok new =>
        let dep2 :=
          if new.isEmpty then remove_usedeps dep
          else remove_usedeps dep ++ "[" ++ joinSep "," new ++ "]"
        match usedeps_reduce enabled rest with
        | .error e => .error e
        | .ok tail => .ok (Dep.s dep2 :: tail)

example : usedeps_reduce ["flag"] [Dep.s "pkg[flag?]"] = .ok [Dep.s "pkg[flag]"] := by
  decide

example : usedeps_reduce [] [Dep.s "pkg[flag?]"] = .ok [Dep.s "pkg"] := by decide

example : usedeps_reduce [] [Dep.s "pkg[!a]"] = .ok [Dep.s "pkg"] := by decide

example : usedeps_reduce [] [Dep.s "pkg[a]"] = .ok [Dep.s "pkg[a]"] := by decide

/-- The `->`-pair stripping loop of `src_uri_paren_reduce`: a `'->'` token
sets `skip_next`, dropping itself and the following element. -/
def src_uri_strip : List Dep → List Dep
  | [] => []
  | Dep.s "->" :: rest =>
    match rest with
    | [] => []
    | _ :: rest2 => src_uri_strip rest2
  | d :: rest => d :: src_uri_strip rest

/-- `src_uri_paren_reduce(src_uris)`. -/
def src_uri_paren_reduce (s : String) : Except PyErr (List Dep) :=
  match paren_reduce s with
  | .error e => .error e
  | .ok l => .ok (src_uri_strip l)

/-- `_resolve_enabled_useflags(iuse_list, use_list)` with the externally
supplied mask/force sets as parameters: a declared flag (its `+`/`-`
prefix stripped) is enabled iff it is in the USE list or the force list
and not in the mask list. -/
def resolve_enabled_useflags (use_mask use_force iuse_list use_list : List String) :
    List String :=
  iuse_list.filterMap (fun myiuse =>
    let m := if firstChar myiuse = some '+' ∨ firstChar myiuse = some '-' then
        dropFirstStr myiuse else myiuse
    if (use_list.contains m || use_force.contains m) && !(use_mask.contains m) then
      some m
    else none)

/-- The per-field computation of `calculate_dependencies` (the body of its
`try:` block for field `k`): parse (with the `SRC_URI` rename-stripping
variant), `use_reduce` with `uselist = raw_use`, `paren_normalize`,
`paren_license_choose` for `LICENSE` / `paren_choose` otherwise,
`usedeps_reduce` for the `*DEPEND` fields, and `' '.join`. -/
def field_pipeline (inst : String → Option String) (raw_use enabled_use : List String)
    (k raw : String) : Except PyErr String :=
  match (if k = "SRC_URI" then src_uri_paren_reduce raw else paren_reduce raw) with
  | .error e => .error e
  | .ok d0 =>
    match use_reduce raw_use [] false [] d0 with
    | .error e => .error e
    | .ok d1 =>
      match paren_normalize d1 with
      | none => .error .crash
      | some d2 =>
        match (if k = "LICENSE" then .ok ((paren_license_choose d2).map Dep.s)
               else paren_choose inst d2) with
        | .error e => .error e
        | .ok d3 =>
          match (if endsWithStr k "DEPEND" then usedeps_reduce enabled_use d3
                 else .ok d3) with
          | .error e => .error e
          | .ok d4 => joinSpaceE d4
where
  /-- `k.endswith("DEPEND")`. -/
  endsWithStr (s suf : String) : Bool := suf.toList.isSuffixOf s.toList

/-- One iteration of the field loop of `calculate_dependencies`: on any
exception the handler reports through `updateProgress`, sets `deps = ''`
and `continue`s — so `metadata[k] = deps` is skipped and the field keeps
its raw value. -/
def calc_field (inst : String → Option String) (raw_use enabled_use : List String)
    (k raw : String) : String :=
  match field_pipeline inst raw_use enabled_use k raw with
  | .ok s => s
  | .error _ => raw

/-- `calculate_dependencies(...)`, restricted to the six per-field
computations of its `for k in (...)` loop (the `USE`/`USE_MASK`/...
bookkeeping entries of the metadata dict do not feed back into these).
`my_use.split()` and `my_iuse.split()` are modelled for space-separated
input; `sorted(set(...))` pins the set order (see `sortStr`).  The result
type is `Except` to make the observable control flow explicit: every
per-field exception is caught *inside* the loop, so the function as a
whole always returns `.ok`. -/
def calculate_dependencies (inst : String → Option String)
    (use_mask use_force : List String)
    (my_iuse my_use my_license my_depend my_rdepend my_pdepend my_provide
     my_src_uri : String) : Except PyErr (List (String × String)) :=
  let raw_use := strip_empty (pySplitChar ' ' my_use)
  let enabled_use := sortStr (dedupAux []
    (resolve_enabled_useflags use_mask use_force
      (strip_empty (pySplitChar ' ' my_iuse)) raw_use))
  .ok [("LICENSE", calc_field inst raw_use enabled_use "LICENSE" my_license),
       ("RDEPEND", calc_field inst raw_use enabled_use "RDEPEND" my_rdepend),
       ("DEPEND", calc_field inst raw_use enabled_use "DEPEND" my_depend),
       ("PDEPEND", calc_field inst raw_use enabled_use "PDEPEND" my_pdepend),
       ("PROVIDE", calc_field inst raw_use enabled_use "PROVIDE" my_provide),
       ("SRC_URI", calc_field inst raw_use enabled_use "SRC_URI" my_src_uri)]

example : field_pipeline (instOf []) [] [] "DEPEND" "a ( b" =
    .error (.invalid "missing right parenthesis") := by decide

example : calc_field (instOf []) [] [] "DEPEND" "a ( b" = "a ( b" := by decide

example : calculate_dependencies (instOf []) [] [] "" "" "" "a ( b" "" "" "" "" =
    .ok [("LICENSE", ""), ("RDEPEND", ""), ("DEPEND", "a ( b"), ("PDEPEND", ""),
         ("PROVIDE", ""), ("SRC_URI", "")] := by decide

example : field_pipeline (instOf ["y"]) [] [] "DEPEND" "|| ( x y ) z" =
    .ok "y z" := by decide

/-!
Well-formed dependency structures for the normalizer.  `Wf d l` describes
a structure in which every `'||'` marker and every `?`-guard token is
immediately followed by a group, and every disjunction group has at least
two children; the flag `d` tracks the `disjunction` parameter of
`_zap_parens` under which `l` is consumed.  `NF d r` is the shape of the
normalizer's output on such structures (bare nested groups occur only as
disjunction branches, never collapsed to one element).
-/

inductive Wf : Bool → List Dep → Prop where
  | nil (d : Bool) : Wf d []
  | plain (d : Bool) (s : String) (rest : List Dep) :
      s ≠ "||" → lastChar s ≠ some '?' → Wf d rest → Wf d (Dep.s s :: rest)
  | orPair (d : Bool) (G : List Dep) (rest : List Dep) :
      Wf true G → 2 ≤ G.length → Wf d rest → Wf d (Dep.s "||" :: Dep.l G :: rest)
  | condPair (d : Bool) (s : String) (T rest : List Dep) :
      lastChar s = some '?' → Wf false T → Wf d rest →
      Wf d (Dep.s s :: Dep.l T :: rest)
  | list (d : Bool) (ds rest : List Dep) :
      Wf false ds → Wf d rest → Wf d (Dep.l ds :: rest)

inductive NF : Bool → List Dep → Prop where
  | nil (d : Bool) : NF d []
  | plain (d : Bool) (s : String) (rest : List Dep) :
      s ≠ "||" → lastChar s ≠ some '?' → NF d rest → NF d (Dep.s s :: rest)
  | orPair (d : Bool) (B : List Dep) (rest : List Dep) :
      NF true B → 2 ≤ B.length → NF d rest → NF d (Dep.s "||" :: Dep.l B :: rest)
  | condPair (d : Bool) (s : String) (T rest : List Dep) :
      lastChar s = some '?' → NF false T → NF d rest →
      NF d (Dep.s s :: Dep.l T :: rest)
  | branch (z rest : List Dep) :
      NF false z → z.length ≠ 1 → NF true rest → NF true (Dep.l z :: rest)

theorem NF_append {d : Bool} {xs ys : List Dep} (hx : NF d xs) (hy : NF d ys) :
    NF d (xs ++ ys) := by
  induction hx with
  | nil => simpa using hy
  | plain d s rest hne hq hrest ih =>
    exact NF.plain d s _ hne hq (ih hy)
  | orPair d B rest hB hlen hrest ihB ihrest =>
    exact NF.orPair d B _ hB hlen (ihrest hy)
  | condPair d s T rest hq hT hrest ihT ihrest =>
    exact NF.condPair d s T _ hq hT (ihrest hy)
  | branch z rest hz hlen hrest ihz ihrest =>
    exact NF.branch z _ hz hlen (ihrest hy)

theorem NF_false_singleton {e : Dep} (h : NF false [e]) :
    ∃ s, e = Dep.s s ∧ s ≠ "||" ∧ lastChar s ≠ some '?' := by
  cases h with
  | plain d s rest hne hq _ => exact ⟨s, rfl, hne, hq⟩

/-- A `'||'` token does not end in `'?'`, so a guard token is never the
`'||'` marker. -/
theorem guard_ne_or {s : String} (hq : lastChar s = some '?') : s ≠ "||" := by
  intro he
  rw [he] at hq
  simp [lastChar] at hq

/-- On a well-formed structure the normalizer succeeds, produces a
normal form, and — in a disjunction context — preserves the child
count. -/
theorem zap_wf {d : Bool} {l : List Dep} (h : Wf d l) :
    ∃ r, zap d l = some r ∧ NF d r ∧ (d = true → r.length = l.length) := by
  induction h with
  | nil d => exact ⟨[], rfl, NF.nil d, fun _ => rfl⟩
  | plain d s rest hne hq _ ih =>
    obtain ⟨tr, htr, hnf, hlen⟩ := ih
    refine ⟨Dep.s s :: tr, ?_, NF.plain d s tr hne hq hnf, ?_⟩
    · rw [zap.eq_def]
      simp [hne, hq, htr]
    · intro hd
      simp [hlen hd]
  | orPair d G rest _ hlen2 _ ihG ihrest =>
    obtain ⟨zG, hzG, hnfG, hlenG⟩ := ihG
    obtain ⟨tr, htr, hnf, hlen⟩ := ihrest
    have hlG : zG.length = G.length := hlenG rfl
    have hne1 : zG.length ≠ 1 := by omega
    refine ⟨Dep.s "||" :: Dep.l zG :: tr, ?_, ?_, ?_⟩
    · rw [zap.eq_def]
      simp [zapNext, hzG, htr, hne1]
    · exact NF.orPair d zG tr hnfG (by omega) hnf
    · intro hd
      simp [hlen hd]
  | condPair d s T rest hq _ _ ihT ihrest =>
    obtain ⟨zT, hzT, hnfT, _⟩ := ihT
    obtain ⟨tr, htr, hnf, hlen⟩ := ihrest
    refine ⟨Dep.s s :: Dep.l zT :: tr, ?_,
      NF.condPair d s zT tr hq hnfT hnf, ?_⟩
    · rw [zap.eq_def]
      simp [guard_ne_or hq, hq, zapNext, hzT, htr]
    · intro hd
      simp [hlen hd]
  | list d ds rest _ _ ihds ihrest =>
    obtain ⟨zds, hzds, hnfds, _⟩ := ihds
    obtain ⟨tr, htr, hnf, hlen⟩ := ihrest
    cases d with
    | false =>
      refine ⟨zds ++ tr, ?_, NF_append hnfds hnf, ?_⟩
      · rw [zap.eq_def]
        simp [hzds, htr]
      · intro hd
        cases hd
    | true =>
      by_cases h1 : zds.length = 1
      · obtain ⟨e, he⟩ : ∃ e, zds = [e] := by
          cases zds with
          | nil => simp at h1
          | cons a t =>
            cases t with
            | nil => exact ⟨a, rfl⟩
            | cons b t2 => simp at h1
        obtain ⟨s, hes, hne, hq⟩ := NF_false_singleton (he ▸ hnfds)
        refine ⟨Dep.s s :: tr, ?_, NF.plain true s tr hne hq hnf, ?_⟩
        · rw [zap.eq_def]
          simp [hzds, htr, h1, he, hes]
        · intro _
          simp [hlen rfl]
      · refine ⟨Dep.l zds :: tr, ?_, NF.branch zds tr hnfds h1 hnf, ?_⟩
        · rw [zap.eq_def]
          simp [hzds, htr, h1]
        · intro _
          simp [hlen rfl]

/-- The normalizer is the identity on normal forms. -/
theorem zap_fix {d : Bool} {r : List Dep} (h : NF d r) : zap d r = some r := by
  induction h with
  | nil d => rfl
  | plain d s rest hne hq _ ih =>
    rw [zap.eq_def]
    simp [hne, hq, ih]
  | orPair d B rest _ hlen _ ihB ihrest =>
    have hne1 : B.length ≠ 1 := by omega
    rw [zap.eq_def]
    simp [zapNext, ihB, ihrest, hne1]
  | condPair d s T rest hq _ _ ihT ihrest =>
    rw [zap.eq_def]
    simp [guard_ne_or hq, hq, zapNext, ihT, ihrest]
  | branch z rest _ hlen _ ihz ihrest =>
    rw [zap.eq_def]
    simp [ihz, ihrest, hlen]

/-!
Soundness of the selectors with respect to the installed-atom oracle.
-/

theorem findInstalled_isSome {inst : String → Option String} :
    ∀ {l : List Dep} {y : Dep}, findInstalled inst l = some y →
      (instDep inst y).isSome = true := by
  intro l
  induction l with
  | nil => intro y h; simp [findInstalled] at h
  | cons a t ih =>
    intro y h
    rw [findInstalled.eq_def] at h
    by_cases hi : (instDep inst a).isSome = true
    · simp [hi] at h
      rw [← h]
      exact hi
    · simp [hi] at h
      exact ih h

theorem allInstalled_mem {inst : String → Option String} :
    ∀ {l : List Dep}, allInstalled inst l = true →
      ∀ y ∈ l, (instDep inst y).isSome = true := by
  intro l
  induction l with
  | nil => intro _ y hy; simp at hy
  | cons a t ih =>
    intro h y hy
    rw [allInstalled.eq_def] at h
    rw [Bool.and_eq_true] at h
    rw [List.mem_cons] at hy
    rcases hy with hy | hy
    · exact hy ▸ h.1
    · exact ih h.2 y hy

/-- Unfolding `dep_or_select` on a `'||'` marker followed by an element. -/
theorem or_sel_orPair (inst : String → Option String) (nxt : Dep) (rest2 : List Dep) :
    dep_or_select inst (Dep.s "||" :: nxt :: rest2) =
      (match orNext inst nxt with
       | .error e => .error e
       | .ok sel =>
         match findInstalled inst sel with
         | some y => .ok [y]
         | none => dep_or_select inst rest2) := rfl

/-- Unfolding `dep_or_select` on a group alternative. -/
theorem or_sel_list (inst : String → Option String) (ds rest : List Dep) :
    dep_or_select inst (Dep.l ds :: rest) =
      (match dep_and_go inst ds with
       | .error e => .error e
       | .ok nl =>
         if allInstalled inst nl then
           (match nl with
            | [] => dep_or_select inst rest
            | _ => .ok nl)
         else dep_or_select inst rest) := rfl

/-- Unfolding `dep_or_select` on an atom alternative. -/
theorem or_sel_atom (inst : String → Option String) (x : String) (rest : List Dep)
    (hx : ¬x = "||") :
    dep_or_select inst (Dep.s x :: rest) =
      (if (inst x).isSome then .ok [Dep.s x] else dep_or_select inst rest) := by
  rw [dep_or_select.eq_def]
  simp [hx]

theorem dep_and_select_installed {inst : String → Option String}
    {l r : List Dep} (h : dep_and_select inst l = .ok r) :
    ∀ y ∈ r, (instDep inst y).isSome = true := by
  unfold dep_and_select at h
  cases hgo : dep_and_go inst l with
  | error e => rw [hgo] at h; cases h
  | ok nl =>
    rw [hgo] at h
    have h2 : (if allInstalled inst nl = true then nl else []) = r := by
      exact Except.ok.inj h
    by_cases hai : allInstalled inst nl = true
    · rw [if_pos hai] at h2
      subst h2
      exact allInstalled_mem hai
    · rw [if_neg hai] at h2
      subst h2
      intro y hy
      simp at hy

theorem dep_or_select_installed {inst : String → Option String} :
    ∀ {l r : List Dep}, dep_or_select inst l = .ok r →
      ∀ y ∈ r, (instDep inst y).isSome = true := by
  intro l
  generalize hn : l.length = n
  induction n using Nat.strong_induction_on generalizing l with
  | _ n ih =>
    intro r hr y hy
    cases l with
    | nil =>
      rw [show dep_or_select inst [] = .ok [] from rfl] at hr
      cases hr
      simp at hy
    | cons head rest =>
      cases head with
      | s x =>
        by_cases hx : x = "||"
        · subst hx
          cases rest with
          | nil =>
            rw [show dep_or_select inst [Dep.s "||"] = .error .crash from rfl] at hr
            cases hr
          | cons nxt rest2 =>
            rw [or_sel_orPair] at hr
            split at hr
            · cases hr
            · split at hr
              · rename_i sel hsel y0 hfound
                cases hr
                rw [List.mem_singleton] at hy
                subst hy
                exact findInstalled_isSome hfound
              · exact ih rest2.length (by rw [← hn]; simp; omega) rfl hr y hy
        · rw [or_sel_atom inst x rest hx] at hr
          by_cases hi : (inst x).isSome = true
          · rw [if_pos hi] at hr
            cases hr
            rw [List.mem_singleton] at hy
            subst hy
            simpa [instDep, pyStr] using hi
          · rw [if_neg (by simpa using hi)] at hr
            exact ih rest.length (by rw [← hn]; simp) rfl hr y hy
      | l ds =>
        rw [or_sel_list] at hr
        split at hr
        · cases hr
        · rename_i nl hgo
          by_cases hai : allInstalled inst nl = true
          · rw [if_pos hai] at hr
            cases nl with
            | nil => exact ih rest.length (by rw [← hn]; simp) rfl hr y hy
            | cons a t =>
              cases hr
              exact allInstalled_mem hai y hy
          · rw [if_neg (by simpa using hai)] at hr
            exact ih rest.length (by rw [← hn]; simp) rfl hr y hy

/-!
First-satisfied-branch behaviour of `dep_or_select` on flat disjunction
bodies (each alternative an atom or a group of atoms, no nested `'||'`).
-/

/-- An atom alternative that is not the `'||'` marker. -/
def isPlainAtom : Dep → Bool
  | Dep.s a => !(a == "||")
  | Dep.l _ => false

/-- A flat alternative: a plain atom, or a group of plain atoms. -/
def isFlatBranch : Dep → Bool
  | Dep.s a => !(a == "||")
  | Dep.l ds => ds.all isPlainAtom

/-- A branch is satisfied when it is non-empty and the oracle matches all
its atoms (an atom alternative is its own one-atom branch). -/
def branchSat (inst : String → Option String) : Dep → Bool
  | Dep.s a => (inst a).isSome
  | Dep.l ds => !ds.isEmpty && allInstalled inst ds

/-- The atoms an alternative contributes when selected. -/
def branchDeps : Dep → List Dep
  | Dep.s a => [Dep.s a]
  | Dep.l ds => ds

/-- The specification-side selection: the first satisfied branch, in the
original order. -/
def firstSat (inst : String → Option String) : List Dep → List Dep
  | [] => []
  | b :: rest => if branchSat inst b then branchDeps b else firstSat inst rest

theorem dep_and_go_atoms {inst : String → Option String} :
    ∀ {ds : List Dep}, ds.all isPlainAtom = true → dep_and_go inst ds = .ok ds := by
  intro ds
  induction ds with
  | nil => intro _; rfl
  | cons d t ih =>
    intro h
    rw [List.all_cons, Bool.and_eq_true] at h
    cases d with
    | s a =>
      have ha : ¬(a = "||") := by simpa [isPlainAtom] using h.1
      rw [dep_and_go.eq_def]
      simp [ha, ih h.2]
    | l ds2 => simp [isPlainAtom] at h

/-- On flat branches, `dep_or_select` returns exactly the first satisfied
branch (or `[]`). -/
theorem dep_or_select_flat (inst : String → Option String) :
    ∀ bs : List Dep, bs.all isFlatBranch = true →
      dep_or_select inst bs = .ok (firstSat inst bs) := by
  intro bs
  induction bs with
  | nil => intro _; rfl
  | cons b rest ih =>
    intro hf
    rw [List.all_cons, Bool.and_eq_true] at hf
    cases b with
    | s a =>
      have ha : ¬(a = "||") := by simpa [isFlatBranch] using hf.1
      rw [dep_or_select.eq_def]
      by_cases hi : (inst a).isSome = true
      · simp [ha, hi, firstSat, branchSat, branchDeps]
      · simp [ha, hi, firstSat, branchSat, branchDeps, ih hf.2]
    | l ds =>
      have hall : ds.all isPlainAtom = true := by simpa [isFlatBranch] using hf.1
      rw [or_sel_list, dep_and_go_atoms hall]
      by_cases hai : allInstalled inst ds = true
      · cases ds with
        | nil => simp [hai, firstSat, branchSat, ih hf.2]
        | cons d t => simp [hai, firstSat, branchSat, branchDeps]
      · simp [hai, firstSat, branchSat, ih hf.2]

/-!
Guard-evaluation lemmas for the conditional reducer.
-/

/-- A guard token is well-formed when the flag left after stripping the
`?` is non-empty, also after a `!` prefix. -/
def guardWf (g : String) : Prop :=
  dropLastStr g ≠ "" ∧
    (firstChar (dropLastStr g) = some '!' → dropFirstStr (dropLastStr g) ≠ "")

/-- With `matchall` set and empty `masklist`/`excludeall`, every
well-formed guard — negated or not — holds, and the chain evaluates to
the incoming `ismatch`. -/
theorem evalGuards_matchall (us : List String) (b : Bool) :
    ∀ guards : List String, (∀ g ∈ guards, guardWf g) →
      evalGuards us [] [] true b guards = .ok b := by
  intro guards
  induction guards with
  | nil => intro _; rfl
  | cons g rest ih =>
    intro h
    have hg := h g (by simp)
    have hrest := ih (fun g2 hg2 => h g2 (by simp [hg2]))
    by_cases hneg : firstChar (dropLastStr g) = some '!'
    · simp [evalGuards, hg.1, hneg, hg.2 hneg, hrest]
    · simp [evalGuards, hg.1, hneg, hrest]

/-- Membership of the (negated) flag in `excludeall` fails a negated
guard, whatever `uselist`, `masklist` and `matchall` are. -/
theorem evalGuards_exclude_negated (us ms ex : List String) (ma b : Bool)
    (g : String) (rest : List String)
    (h1 : firstChar (dropLastStr g) = some '!')
    (h2 : dropFirstStr (dropLastStr g) ≠ "")
    (h3 : ex.contains (dropFirstStr (dropLastStr g)) = true) :
    evalGuards us ms ex ma b (g :: rest) = .ok false := by
  have hne : dropLastStr g ≠ "" := by
    intro he
    rw [he] at h1
    simp [firstChar] at h1
  have h3m : dropFirstStr (dropLastStr g) ∈ ex := by simpa using h3
  simp [evalGuards, hne, h1, h2, h3m]

/-- A positive (unnegated) guard never consults `excludeall`. -/
theorem evalGuards_pos_ignores_ex (us ms : List String) (ma b : Bool)
    (g : String) (ex ex2 : List String)
    (h1 : dropLastStr g ≠ "")
    (h2 : ¬firstChar (dropLastStr g) = some '!') :
    evalGuards us ms ex ma b [g] = evalGuards us ms ex2 ma b [g] := by
  simp only [evalGuards, h1, h2]
  split_ifs <;> rfl

/-- A clause with no `=`/`?` suffix: a bare `flag` passes through
unchanged, a bare `!flag` is dropped. -/
theorem processUseClause_bare (enabled : List String) (use : String)
    (h1 : ¬lastChar use = some '=') (h2 : ¬lastChar use = some '?') :
    processUseClause enabled use =
      (if firstChar use = some '!' then [] else [use]) := by
  by_cases hb : firstChar use = some '!'
  · simp [processUseClause, h1, h2, hb]
  · simp [processUseClause, h1, h2, hb]

/-!
The claims.
-/

/-- C1 (amended): when a field's pipeline raises, `calculate_dependencies`
does *not* propagate the failure to its caller: the handler reports and
`continue`s, the field keeps its raw value (the empty-string assignment in
the handler is skipped by the `continue`), and the call as a whole still
returns normally. -/
theorem c1_malformed_field_caught (inst : String → Option String)
    (ru en : List String) (k raw : String) (e : PyErr)
    (h : field_pipeline inst ru en k raw = .error e) :
    calc_field inst ru en k raw = raw ∧
    ∀ um uf i u li d rd pd pv su,
      (calculate_dependencies inst um uf i u li d rd pd pv su).isOk = true := by
  constructor
  · unfold calc_field
    rw [h]
  · intro um uf i u li d rd pd pv su
    rfl

theorem c1_malformed_field_caught_witness :
    field_pipeline (instOf []) [] [] "DEPEND" "a ( b" =
      .error (.invalid "missing right parenthesis") ∧
    calc_field (instOf []) [] [] "DEPEND" "a ( b" = "a ( b" :=
  ⟨by decide,
   (c1_malformed_field_caught (instOf []) [] [] "DEPEND" "a ( b"
      (.invalid "missing right parenthesis") (by decide)).1⟩

/-- C1 counterexample: with a malformed `DEPEND` field the inner pipeline
raises the typed `InvalidDependString`, yet `calculate_dependencies`
returns normally, with the `DEPEND` entry left at its raw string — no
typed failure reaches the caller. -/
theorem c1_counterexample :
    field_pipeline (instOf []) [] [] "DEPEND" "a ( b" =
      .error (.invalid "missing right parenthesis") ∧
    calculate_dependencies (instOf []) [] [] "" "" "" "a ( b" "" "" "" "" =
      .ok [("LICENSE", ""), ("RDEPEND", ""), ("DEPEND", "a ( b"),
           ("PDEPEND", ""), ("PROVIDE", ""), ("SRC_URI", "")] := by
  exact ⟨by decide, by decide⟩

/-- C2 (amended): when no branch of a non-falsy disjunction is satisfied,
`paren_choose` emits the Python `str()` of the *entire* branch-group list
(e.g. `"['x', 'y']"`), not the first branch alone — still never an empty
result for the disjunction. -/
theorem c2_unsatisfied_disjunction_emits_str_of_group
    (inst : String → Option String) (g : Dep) (rest2 tail : List Dep)
    (h1 : depFalsy g = false)
    (h2 : orNext inst g = .ok [])
    (h3 : paren_choose inst rest2 = .ok tail) :
    paren_choose inst (Dep.s "||" :: g :: rest2) =
      .ok (Dep.s (pyStr g) :: tail) := by
  have hstep : paren_choose inst (Dep.s "||" :: g :: rest2) =
      (if depFalsy g then paren_choose inst rest2
       else
         match orNext inst g with
         | .error e => .error e
         | .ok sel =>
           match paren_choose inst rest2 with
           | .error e => .error e
           | .ok tl =>
             if sel.isEmpty then .ok (Dep.s (pyStr g) :: tl)
             else .ok (sel ++ tl)) := rfl
  rw [hstep, h1, h2, h3]
  simp

theorem c2_unsatisfied_disjunction_witness :
    paren_choose (instOf []) [Dep.s "||", Dep.l [Dep.s "x", Dep.s "y"], Dep.s "z"] =
      .ok [Dep.s (pyStr (Dep.l [Dep.s "x", Dep.s "y"])), Dep.s "z"] ∧
    pyStr (Dep.l [Dep.s "x", Dep.s "y"]) =
      "[" ++ sq ++ "x" ++ sq ++ ", " ++ sq ++ "y" ++ sq ++ "]" :=
  ⟨c2_unsatisfied_disjunction_emits_str_of_group (instOf [])
      (Dep.l [Dep.s "x", Dep.s "y"]) [Dep.s "z"] [Dep.s "z"]
      (by decide) (by decide) (by decide),
   by decide⟩

/-- C2 counterexample: for `"|| ( x y ) z"` with nothing installed the
selector does *not* return the literal first branch `x` plus `z`; it
returns the `str()` of the whole group (`"['x', 'y']"`) plus `z`. -/
theorem c2_counterexample :
    paren_choose (instOf []) [Dep.s "||", Dep.l [Dep.s "x", Dep.s "y"], Dep.s "z"] ≠
      .ok [Dep.s "x", Dep.s "z"] ∧
    field_pipeline (instOf []) [] [] "DEPEND" "|| ( x y ) z" ≠ .ok "x z" ∧
    field_pipeline (instOf []) [] [] "DEPEND" "|| ( x y ) z" =
      .ok ("[" ++ sq ++ "x" ++ sq ++ ", " ++ sq ++ "y" ++ sq ++ "]" ++ " z") := by
  exact ⟨by decide, by decide, by decide⟩

/-- C3 (amended): with `matchall` true and empty masked/exclude sets,
*every* well-formed guard holds — negated or not — so every conditional's
target is included; in particular a `"!a?"`-guarded group survives
`use_reduce` with `matchall` just like an `"a?"`-guarded one. -/
theorem c3_matchall_resolves_all_guards :
    (∀ (us : List String) (b : Bool) (guards : List String),
        (∀ g ∈ guards, guardWf g) →
        evalGuards us [] [] true b guards = .ok b) ∧
    use_reduce [] [] true [] [Dep.s "!a?", Dep.l [Dep.s "x"]] =
      .ok [Dep.l [Dep.s "x"]] ∧
    use_reduce [] [] true [] [Dep.s "a?", Dep.l [Dep.s "x"]] =
      .ok [Dep.l [Dep.s "x"]] :=
  ⟨fun us b guards h => evalGuards_matchall us b guards h, by decide, by decide⟩

theorem c3_matchall_resolves_all_guards_witness :
    (∀ g ∈ ["!a?"], guardWf g) ∧
    evalGuards ["u"] [] [] true true ["!a?"] = .ok true :=
  ⟨by intro g hg; simp at hg; subst hg; exact ⟨by decide, fun _ => by decide⟩,
   (c3_matchall_resolves_all_guards.1 ["u"] true ["!a?"]
      (by intro g hg; simp at hg; subst hg; exact ⟨by decide, fun _ => by decide⟩))⟩

/-- C3 counterexample: with `matchall` true and empty sets, the negated
guard `"!a?"` *holds* and its target is included — the claim predicts the
reduced tree `[]`. -/
theorem c3_counterexample :
    use_reduce [] [] true [] [Dep.s "!a?", Dep.l [Dep.s "x"]] =
      .ok [Dep.l [Dep.s "x"]] ∧
    (Except.ok [Dep.l [Dep.s "x"]] : Except PyErr (List Dep)) ≠ .ok [] := by
  exact ⟨by decide, by decide⟩

/-- C4 (amended): membership in `exclude_all` always fails a *negated*
guard, regardless of `enabled`/`matchall`; a positive guard never consults
`exclude_all` at all. -/
theorem c4_exclude_all_fails_negated_guards :
    (∀ (us ms ex : List String) (ma b : Bool) (g : String) (rest : List String),
        firstChar (dropLastStr g) = some '!' →
        dropFirstStr (dropLastStr g) ≠ "" →
        ex.contains (dropFirstStr (dropLastStr g)) = true →
        evalGuards us ms ex ma b (g :: rest) = .ok false) ∧
    (∀ (us ms : List String) (ma b : Bool) (g : String) (ex ex2 : List String),
        dropLastStr g ≠ "" →
        ¬firstChar (dropLastStr g) = some '!' →
        evalGuards us ms ex ma b [g] = evalGuards us ms ex2 ma b [g]) :=
  ⟨fun us ms ex ma b g rest h1 h2 h3 =>
      evalGuards_exclude_negated us ms ex ma b g rest h1 h2 h3,
   fun us ms ma b g ex ex2 h1 h2 =>
      evalGuards_pos_ignores_ex us ms ma b g ex ex2 h1 h2⟩

theorem c4_exclude_all_fails_negated_guards_witness :
    evalGuards ["a"] [] ["a"] true true ["!a?"] = .ok false ∧
    evalGuards ["a"] [] ["a"] false true ["a?"] = evalGuards ["a"] [] [] false true ["a?"] :=
  ⟨c4_exclude_all_fails_negated_guards.1 ["a"] [] ["a"] true true "!a?" []
      (by decide) (by decide) (by decide),
   c4_exclude_all_fails_negated_guards.2 ["a"] [] false true "a?" ["a"] []
      (by decide) (by decide)⟩

/-- C4 counterexample: `a ∈ exclude_all` does not fail the positive guard
`"a?"`: with `a` enabled the target is included — the claim predicts the
reduced tree `[]`. -/
theorem c4_counterexample :
    use_reduce ["a"] [] false ["a"] [Dep.s "a?", Dep.l [Dep.s "x"]] =
      .ok [Dep.l [Dep.s "x"]] ∧
    (Except.ok [Dep.l [Dep.s "x"]] : Except PyErr (List Dep)) ≠ .ok [] := by
  exact ⟨by decide, by decide⟩

/-- C5 (amended): a bare `flag` clause (no `=`/`?` suffix) is passed
through unchanged into the rewritten constraint list, but a bare `!flag`
clause is silently dropped ("this does not exist atm"). -/
theorem c5_bare_clause_semantics :
    (∀ (enabled : List String) (use : String),
        ¬lastChar use = some '=' → ¬lastChar use = some '?' →
        processUseClause enabled use =
          (if firstChar use = some '!' then [] else [use])) ∧
    usedeps_reduce [] [Dep.s "pkg[a]"] = .ok [Dep.s "pkg[a]"] ∧
    usedeps_reduce [] [Dep.s "pkg[!a]"] = .ok [Dep.s "pkg"] :=
  ⟨fun enabled use h1 h2 => processUseClause_bare enabled use h1 h2,
   by decide, by decide⟩

theorem c5_bare_clause_semantics_witness :
    processUseClause [] "a" = ["a"] ∧ processUseClause [] "!a" = [] :=
  ⟨by rw [c5_bare_clause_semantics.1 [] "a" (by decide) (by decide)]; decide,
   by rw [c5_bare_clause_semantics.1 [] "!a" (by decide) (by decide)]; decide⟩

/-- C5 counterexample: `"pkg[!a]"` is rewritten to `"pkg"` — the bare
`!flag` clause is dropped, not passed through. -/
theorem c5_counterexample :
    usedeps_reduce [] [Dep.s "pkg[!a]"] = .ok [Dep.s "pkg"] ∧
    (Except.ok [Dep.s "pkg"] : Except PyErr (List Dep)) ≠ .ok [Dep.s "pkg[!a]"] := by
  exact ⟨by decide, by decide⟩

/-- C6: on a disjunction with flat branches, `dep_or_select` returns
exactly the first branch — in original order — all of whose atoms the
oracle satisfies; and for `"|| ( x y ) z"` with only `y` installed the
full pipeline selects `{y, z}` (the atom outside the disjunction is always
included). -/
theorem c6_first_satisfied_branch :
    (∀ (inst : String → Option String) (bs : List Dep),
        bs.all isFlatBranch = true →
        dep_or_select inst bs = .ok (firstSat inst bs)) ∧
    field_pipeline (instOf ["y"]) [] [] "DEPEND" "|| ( x y ) z" = .ok "y z" ∧
    paren_choose (instOf ["y"]) [Dep.s "||", Dep.l [Dep.s "x", Dep.s "y"], Dep.s "z"] =
      .ok [Dep.s "y", Dep.s "z"] :=
  ⟨fun inst bs h => dep_or_select_flat inst bs h, by decide, by decide⟩

theorem c6_first_satisfied_branch_witness :
    [Dep.s "x", Dep.s "y"].all isFlatBranch = true ∧
    dep_or_select (instOf ["y"]) [Dep.s "x", Dep.s "y"] =
      .ok (firstSat (instOf ["y"]) [Dep.s "x", Dep.s "y"]) ∧
    firstSat (instOf ["y"]) [Dep.s "x", Dep.s "y"] = [Dep.s "y"] :=
  ⟨by decide,
   c6_first_satisfied_branch.1 (instOf ["y"]) [Dep.s "x", Dep.s "y"] (by decide),
   by decide⟩

/-- C7: `"a ( b"` (unmatched `(`) raises the typed `InvalidDependString`
in `paren_reduce`, and reducing the parse of `"b? "` (dangling guard)
raises the typed `InvalidDependString` in `use_reduce`. -/
theorem c7_malformed_inputs_raise :
    paren_reduce "a ( b" = .error (.invalid "missing right parenthesis") ∧
    paren_reduce "b? " = .ok [Dep.s "b?"] ∧
    use_reduce [] [] false [] [Dep.s "b?"] =
      .error (.invalid "Conditional without target in") := by
  exact ⟨by decide, by decide, by decide⟩

/-- C8: `"pkg[flag?]"` rewrites to `"pkg[flag]"` when `flag` is enabled,
and to `"pkg"` — bracket suffix omitted entirely — when the enabled set is
empty. -/
theorem c8_conditional_clause_rewrite :
    usedeps_reduce ["flag"] [Dep.s "pkg[flag?]"] = .ok [Dep.s "pkg[flag]"] ∧
    usedeps_reduce [] [Dep.s "pkg[flag?]"] = .ok [Dep.s "pkg"] := by
  exact ⟨by decide, by decide⟩

/-- C9 (amended): `paren_normalize` is idempotent on well-formed
dependency structures — those in which every `'||'` marker and guard token
is followed by a group and every disjunction group has at least two
children.  (On a single-child disjunction group it is not: see the
counterexample.) -/
theorem c9_normalize_idempotent_on_wf (l : List Dep) (h : Wf false l) :
    (paren_normalize l).bind paren_normalize = paren_normalize l := by
  obtain ⟨r, hz, hnf, _⟩ := zap_wf h
  unfold paren_normalize
  rw [hz]
  simpa using zap_fix hnf

theorem c9_normalize_idempotent_on_wf_witness :
    Wf false [Dep.s "||", Dep.l [Dep.s "a", Dep.s "b"], Dep.s "c"] ∧
    (paren_normalize [Dep.s "||", Dep.l [Dep.s "a", Dep.s "b"], Dep.s "c"]).bind
        paren_normalize =
      paren_normalize [Dep.s "||", Dep.l [Dep.s "a", Dep.s "b"], Dep.s "c"] := by
  have w : Wf false [Dep.s "||", Dep.l [Dep.s "a", Dep.s "b"], Dep.s "c"] :=
    Wf.orPair false [Dep.s "a", Dep.s "b"] [Dep.s "c"]
      (Wf.plain true "a" [Dep.s "b"] (by decide) (by decide)
        (Wf.plain true "b" [] (by decide) (by decide) (Wf.nil true)))
      (by decide)
      (Wf.plain false "c" [] (by decide) (by decide) (Wf.nil false))
  exact ⟨w, c9_normalize_idempotent_on_wf _ w⟩

/-- C9 counterexample: on the actual `paren_reduce` output for
`"|| ( ( a b ) )"` — a disjunction group with a single group child — the
normalizer is not idempotent: one pass gives `[["a","b"]]`, a second pass
flattens it to `["a","b"]`. -/
theorem c9_counterexample :
    paren_reduce "|| ( ( a b ) )" =
      .ok [Dep.s "||", Dep.l [Dep.l [Dep.s "a", Dep.s "b"]]] ∧
    (paren_normalize [Dep.s "||", Dep.l [Dep.l [Dep.s "a", Dep.s "b"]]]).bind
        paren_normalize ≠
      paren_normalize [Dep.s "||", Dep.l [Dep.l [Dep.s "a", Dep.s "b"]]] := by
  exact ⟨by decide, by decide⟩

/-- C10: whenever `dep_or_select` or `dep_and_select` returns a list,
every element of it is reported installed by the oracle
(`get_installed_atom` returns a match) — so the stringified fallback of an
unsatisfied disjunction never appears in these two helpers' results. -/
theorem c10_selected_elements_installed (inst : String → Option String)
    (l r : List Dep) :
    (dep_or_select inst l = .ok r → ∀ y ∈ r, (instDep inst y).isSome = true) ∧
    (dep_and_select inst l = .ok r → ∀ y ∈ r, (instDep inst y).isSome = true) :=
  ⟨fun h => dep_or_select_installed h, fun h => dep_and_select_installed h⟩

theorem c10_selected_elements_installed_witness :
    dep_or_select (instOf ["y"]) [Dep.s "x", Dep.s "y"] = .ok [Dep.s "y"] ∧
    (∀ y ∈ [Dep.s "y"], (instDep (instOf ["y"]) y).isSome = true) :=
  ⟨by decide,
   (c10_selected_elements_installed (instOf ["y"]) [Dep.s "x", Dep.s "y"]
      [Dep.s "y"]).1 (by decide)⟩

end Entropy
